import Mathlib

/-!
Shallow embedding of `cargo-recent` (`src/main.rs`) and verification of its
specification claims.

Modelling conventions:
* Absolute filesystem paths are lists of components (`AbsPath`); the string
  rendering used by the program for lexicographic comparison is `pathStr`.
* Machine timestamps (`DateTime<Local>` obtained from a file's mtime) are
  modelled as `Nat`, with `0` standing for `UNIX_EPOCH`; the conversion
  `SystemTime -> DateTime<Local>` is order-preserving, so comparisons are
  faithfully mirrored by `Nat` comparisons.
* The filesystem, the current working directory, the `WalkDir` traversal
  (an external crate whose sibling order is unspecified) and the results of
  the two spawned processes (`git diff`, `cargo`) are oracles collected in
  the `FS` and `Env` structures; one program run observes a static tree, so
  every query is a pure function of that state.
* Fallible Rust code returning `anyhow::Result` is modelled with `Except Err`,
  with one `Err` constructor per `anyhow!`/`context` failure site.
-/

deriving instance DecidableEq for Except

namespace CargoRecent

/-! ### String primitives (structural, kernel-computable) -/

/-- Splitting a character list at every occurrence of `sep`
(the semantics of splitting a Rust string on a separator character). -/
def splitOnChar (sep : Char) : List Char → List (List Char)
  | [] => [[]]
  | c :: cs =>
    let r := splitOnChar sep cs
    if c = sep then [] :: r
    else
      match r with
      | [] => [[c]]
      | h :: t => (c :: h) :: t

/-- Byte/code-point lexicographic strict order on character lists, the order
Rust uses for `str < str` (identical for ASCII content). -/
def lexLt : List Char → List Char → Bool
  | [], [] => false
  | [], _ :: _ => true
  | _ :: _, [] => false
  | a :: as, b :: bs =>
    if a.toNat < b.toNat then true
    else if b.toNat < a.toNat then false
    else lexLt as bs

/-- Strict `<` on strings as Rust compares `to_string_lossy()` results. -/
def strLt (s t : String) : Bool := lexLt s.toList t.toList

/-- Unicode `White_Space` test, the class matched by Rust's `char::is_whitespace`
and by the regex crate's `\s` — note it includes the newline. -/
def isUniWs (c : Char) : Bool :=
  decide ((9 ≤ c.toNat ∧ c.toNat ≤ 13) ∨ c.toNat = 32 ∨ c.toNat = 0x85 ∨ c.toNat = 0xA0 ∨
    c.toNat = 0x1680 ∨ (0x2000 ≤ c.toNat ∧ c.toNat ≤ 0x200A) ∨ c.toNat = 0x2028 ∨
    c.toNat = 0x2029 ∨ c.toNat = 0x202F ∨ c.toNat = 0x205F ∨ c.toNat = 0x3000)

/-- Whitespace trimming from the front of a character list (`\s*`); since
`\s` matches the newline, this can cross line boundaries. -/
def dropWs : List Char → List Char
  | [] => []
  | c :: cs => if isUniWs c then dropWs cs else c :: cs

/-- Rust `str::trim`: whitespace removed from both ends. -/
def rustTrim (s : String) : String :=
  String.mk (((dropWs s.toList).reverse |> dropWs).reverse)

/-- Strip one trailing carriage return, as Rust `str::lines` does per line. -/
def stripCr (l : List Char) : List Char :=
  if l.getLast? = some '\r' then l.dropLast else l

/-- Rust `str::lines`: split on newline, no trailing empty line, strip `\r`. -/
def rustLines (s : String) : List String :=
  let parts := splitOnChar '\n' s.toList
  let parts := if parts.getLast? = some [] then parts.dropLast else parts
  parts.map (fun l => String.mk (stripCr l))

/-- Substring test on character lists. -/
def listContainsSeg (pat : List Char) : List Char → Bool
  | [] => pat.isEmpty
  | c :: t => pat.isPrefixOf (c :: t) || listContainsSeg pat t

/-- Rust `str::contains(&str)`: contiguous substring test. -/
def strContains (s pat : String) : Bool := listContainsSeg pat.toList s.toList

/-! ### Paths -/

/-- An absolute path, as its list of components below the filesystem root. -/
abbrev AbsPath := List String

/-- Rendering of an absolute path as the string the program compares and
prints (`to_string_lossy`). -/
def pathStr (p : AbsPath) : String := "/" ++ String.intercalate "/" p

/-- Components contributed by one `git diff --name-only` output line when it
is joined onto the repository root (`repo_root.join(file)`); the reported
paths are relative and `/`-separated. -/
def lineComps (line : String) : List String :=
  if line = "" then [] else (splitOnChar '/' line.toList).map String.mk

/-- A Rust `PathBuf` value as the program manipulates it: absolute, relative
to the process working directory (`Path::new(".")` is `rel []`), or the empty
path `PathBuf::new()` that `find_recent_crate_path` uses for "no change". -/
inductive RPath where
  | abs (cs : AbsPath)
  | rel (cs : List String)
  | emptyP
deriving DecidableEq, Repr

/-! ### Filesystem and process-environment oracles -/

/-- One entry yielded by the `WalkDir` traversal: its (absolute) path and
whether `file_type().is_file()` holds. -/
structure WalkEntry where
  path : AbsPath
  isFile : Bool
deriving DecidableEq, Repr

/-- The filesystem as observed during one invocation (the tree is static for
the process lifetime).  `mtime p = some t` models `fs::metadata(p)` and
`metadata.modified()` both succeeding with timestamp `t`; `none` models either
failing.  `readFile` models `fs::read_to_string`.  `canon` models
`Path::canonicalize` (symlink resolution; `none` on failure).  `walk root d`
models `WalkDir::new(root).max_depth(d)` in traversal order (sibling order is
whatever the OS returns). -/
structure FS where
  pathExists : AbsPath → Bool
  isDir : AbsPath → Bool
  mtime : AbsPath → Option Nat
  readFile : AbsPath → Option String
  canon : AbsPath → Option AbsPath
  walk : AbsPath → Nat → List WalkEntry
  cwd : AbsPath

/-- Resolve an `RPath` against the working directory, as the OS does for
every syscall the program issues. -/
def FS.resolve (fs : FS) : RPath → AbsPath
  | .abs cs => cs
  | .rel cs => fs.cwd ++ cs
  | .emptyP => fs.cwd

/-- Results of the external processes spawned during one invocation:
`gitDiffOk` is `output.status.success()` for `git diff --name-only`,
`gitDiffStdout` is its stdout when it decodes as UTF-8 (`none` otherwise);
the `cargo*` fields describe the forwarded cargo invocation in dispatch
mode (`cargoSpawnOk` is whether `Command::output()` itself succeeded). -/
structure Env where
  gitDiffOk : Bool
  gitDiffStdout : Option String
  cargoSpawnOk : Bool
  cargoStatusOk : Bool
  cargoStderr : String

/-- One constructor per failure site of the program (each `anyhow!` or
`.context(..)?` that can surface an error). -/
inductive Err where
  | noRepoRoot
  | diffFailed
  | diffNotUtf8
  | noValidChange
  | rootManifestUnread
  | cwdManifestUnread
  | noCrateDir
  | manifestUnreadable
  | noCargoCommand
  | spawnFailed
  | downstreamFailure (stderr : String)
deriving DecidableEq, Repr

/-! ### `find_repo_root` (src/main.rs lines 214-231) -/

/-- Loop body of `find_repo_root`: check `current/.git` (must exist and be a
directory), else move to the parent; the filesystem root `[]` is the last
directory checked.  The loop is bounded by the path depth, rendered here as
structural fuel (always called with enough fuel to reach the root). -/
def repoRootLoop (fs : FS) : Nat → AbsPath → Option AbsPath
  | 0, _ => none
  | fuel + 1, current =>
    if fs.pathExists (current ++ [".git"]) && fs.isDir (current ++ [".git"]) then
      some current
    else if current = [] then none
    else repoRootLoop fs fuel current.dropLast

/-- Model of `find_repo_root`: walk up from the current directory until a
`.git` directory entry is found. -/
def find_repo_root (fs : FS) : Option AbsPath :=
  repoRootLoop fs (fs.cwd.length + 1) fs.cwd

/-! ### `find_crate_directory` (src/main.rs lines 234-396) -/

/-- File name of a walk entry (`entry.file_name()`): its last component. -/
def entryName (e : WalkEntry) : String := e.path.getLastD ""

/-- Candidate crate directories in the workspace search: parents of the
`Cargo.toml` file entries yielded by `WalkDir::new(root).max_depth(3)`,
in traversal order (lines 261-271 and 351-357). -/
def wsCandidates (fs : FS) (root : AbsPath) : List AbsPath :=
  ((fs.walk root 3).filter (fun e => e.isFile && entryName e == "Cargo.toml")).map
    (fun e => e.path.dropLast)

/-- Containment test run on one candidate directory (lines 273-301): skip the
root itself, canonicalize the file and the directory, and succeed with the
canonical directory when it is a component prefix of the canonical file path
(`Path::starts_with`). -/
def wsContainTest (fs : FS) (root absFile : AbsPath) (dir : AbsPath) : Option AbsPath :=
  if dir = root then none
  else
    match fs.canon absFile, fs.canon dir with
    | some f, some d => if d.isPrefixOf f then some d else none
    | _, _ => none

/-- First candidate (in traversal order) passing the containment test; the
loop of lines 261-302 returns it immediately. -/
def wsFind (fs : FS) (root absFile : AbsPath) : Option AbsPath :=
  (wsCandidates fs root).findSome? (wsContainTest fs root absFile)

/-- Loop body of the ascent of lines 328-339: starting from the file's parent
directory, return the first ancestor that has a `Cargo.toml`; the loop guard
`while let Some(parent) = current.parent()` means the filesystem root `[]` is
never itself checked.  Structural fuel bounds the walk by the path depth. -/
def ascendLoop (fs : FS) : Nat → AbsPath → Option AbsPath
  | 0, _ => none
  | fuel + 1, current =>
    if current = [] then none
    else if fs.pathExists (current ++ ["Cargo.toml"]) then some current
    else ascendLoop fs fuel current.dropLast

/-- Ascent from a directory toward the filesystem root looking for a
`Cargo.toml`, as in lines 328-339. -/
def ascendCargo (fs : FS) (start : AbsPath) : Option AbsPath :=
  ascendLoop fs (start.length + 1) start

/-- Fallback portion of `find_crate_directory` (lines 317-395), reached when
no repository root was found or the repository root has no `Cargo.toml`:
first the current directory is used if it directly holds a `Cargo.toml`
(line 323, returning the relative path `.`), then the ascent from the file's
parent runs, and finally a workspace search from the current directory
(lines 343-391; note its guard re-tests the same `Cargo.toml` whose absence
was just established at line 323, so that section is unreachable). -/
def fcdFallback (fs : FS) (file_path : AbsPath) : Except Err RPath :=
  if fs.pathExists (fs.cwd ++ ["Cargo.toml"]) then .ok (.rel [])
  else
    match ascendCargo fs file_path.dropLast with
    | some dir => .ok (.abs dir)
    | none =>
      if fs.pathExists (fs.cwd ++ ["Cargo.toml"]) then
        match fs.readFile (fs.cwd ++ ["Cargo.toml"]) with
        | none => .error .cwdManifestUnread
        | some content =>
          if strContains content "[workspace]" then
            match wsFind fs fs.cwd file_path with
            | some d => .ok (.abs d)
            | none => .ok (.rel [])
          else .ok (.rel [])
      else .error .noCrateDir

/-- Model of `find_crate_directory` (lines 234-396).  The argument is the
absolute path of the changed file (the program always passes
`repo_root.join(diff_line)`, which is absolute).  When a repository root with
a `Cargo.toml` exists: a `[workspace]` marker triggers the bounded-depth
sub-project search, otherwise the repository root itself is returned at once
(line 312); only without a root `Cargo.toml` (or without a repository root)
does control reach the fallback. -/
def find_crate_directory (fs : FS) (file_path : AbsPath) : Except Err RPath :=
  match find_repo_root fs with
  | some repo_root =>
    if fs.pathExists (repo_root ++ ["Cargo.toml"]) then
      match fs.readFile (repo_root ++ ["Cargo.toml"]) with
      | none => .error .rootManifestUnread
      | some content =>
        if strContains content "[workspace]" then
          match wsFind fs repo_root file_path with
          | some d => .ok (.abs d)
          | none => .ok (.abs repo_root)
        else .ok (.abs repo_root)
    else fcdFallback fs file_path
  | none => fcdFallback fs file_path

/-! ### `find_recent_crate_path` (src/main.rs lines 125-211) -/

/-- One iteration of the selection loop (lines 165-194) over a diff line:
join it onto the repository root, skip it unless the file exists and its
metadata and mtime are readable, then keep the strictly larger timestamp, or
on an exact tie keep the lexicographically smaller rendered path.
`latest_time` starts at `UNIX_EPOCH` (here `0`). -/
def scanStep (fs : FS) (root : AbsPath) (acc : Nat × Option AbsPath) (line : String) :
    Nat × Option AbsPath :=
  let fp := root ++ lineComps line
  if fs.pathExists fp then
    match fs.mtime fp with
    | some t =>
      if acc.1 < t then (t, some fp)
      else if t = acc.1 ∧ acc.2.isSome = true then
        match acc.2 with
        | some cur => if strLt (pathStr fp) (pathStr cur) then (acc.1, some fp) else acc
        | none => acc
      else acc
    | none => acc
  else acc

/-- The file selected by the scanner from the diff lines (the value of
`latest_file` after the loop of lines 162-194). -/
def scanSelect (fs : FS) (root : AbsPath) (lines : List String) : Option AbsPath :=
  (lines.foldl (scanStep fs root) (0, none)).2

/-- The absolute candidate paths the scanner considers (every reported line
joined onto the repository root; no filtering by suffix or file name). -/
def scanCands (root : AbsPath) (lines : List String) : List AbsPath :=
  lines.map (fun l => root ++ lineComps l)

/-- Model of `find_recent_crate_path` (lines 125-211): locate the repository
root, run `git diff --name-only` there, return the empty path when the
trimmed output is empty, otherwise select the latest changed file and resolve
its crate directory; `No valid changed files found` when the loop selected
nothing from a non-empty list. -/
def find_recent_crate_path (fs : FS) (env : Env) : Except Err RPath :=
  match find_repo_root fs with
  | none => .error .noRepoRoot
  | some repo_root =>
    if env.gitDiffOk = false then .error .diffFailed
    else
      match env.gitDiffStdout with
      | none => .error .diffNotUtf8
      | some out =>
        if rustTrim out = "" then .ok .emptyP
        else
          match scanSelect fs repo_root (rustLines out) with
          | none => .error .noValidChange
          | some latest => find_crate_directory fs latest

/-! ### `get_crate_name` (src/main.rs lines 399-418) -/

/-- Capture of the regex tail `"([^\x22]+)"`: a non-empty run of non-quote
characters that must be closed by a quote. -/
def parseNameCapture (rest : List Char) : Option (List Char) :=
  if (rest.takeWhile (fun c => c != '"')).isEmpty then none
  else
    match rest.dropWhile (fun c => c != '"') with
    | x :: _ => if x = '"' then some (rest.takeWhile (fun c => c != '"')) else none
    | [] => none

/-- Match attempt of the regex `(?m)^\s*name\s*=\s*"([^\x22]+)"` from one
anchor position, given the manifest suffix starting there: `\s*` (which may
cross newlines), the literal `name`, `\s*`, `=`, `\s*`, then a quoted
non-empty value whose characters may also include newlines.  The literal
`name` must follow the whitespace run exactly (its head is non-whitespace),
so the match at an anchor is unique when it exists. -/
def parseNameFrom (l : List Char) : Option (List Char) :=
  match dropWs l with
  | c1 :: c2 :: c3 :: c4 :: r1 =>
    if c1 = 'n' ∧ c2 = 'a' ∧ c3 = 'm' ∧ c4 = 'e' then
      match dropWs r1 with
      | c5 :: r2 =>
        if c5 = '=' then
          match dropWs r2 with
          | c6 :: r3 =>
            if c6 = '"' then parseNameCapture r3 else none
          | [] => none
        else none
      | [] => none
    else none
  | _ => none

/-- Suffixes of the text starting just after each newline, in order of
increasing position. -/
def anchorTails : List Char → List (List Char)
  | [] => []
  | c :: cs => if c = '\n' then cs :: anchorTails cs else anchorTails cs

/-- All anchor positions of the multiline `^`: the start of the text and the
position after every newline, as the suffixes starting there, leftmost
first. -/
def anchors (l : List Char) : List (List Char) := l :: anchorTails l

/-- The lines of a manifest (the spec speaks of manifest *lines*; used for
spec-side statements, not by the program model). -/
def contentLines (content : String) : List String :=
  (splitOnChar '\n' content.toList).map String.mk

/-- First regex capture in the manifest text: the capture of the leftmost
match, i.e. of the first anchor position whose match attempt succeeds (every
match of the `^`-anchored pattern starts at an anchor). -/
def firstNameCapture (content : String) : Option String :=
  ((anchors content.toList).findSome? parseNameFrom).map String.mk

/-- File-name fallback used by `get_crate_name`
(`crate_dir.file_name().unwrap_or_default()`): the last path component,
or the empty string for `.` and for component-less paths. -/
def rpathFileName : RPath → String
  | .abs cs => cs.getLastD ""
  | .rel cs => cs.getLastD ""
  | .emptyP => ""

/-- Model of `get_crate_name` (lines 399-418): read `crate_dir/Cargo.toml`
(failing with the `Failed to read Cargo.toml` context when unreadable), take
the first regex capture of a `name = "..."` line, and otherwise fall back to
the directory's own name. -/
def get_crate_name (fs : FS) (crate_dir : RPath) : Except Err String :=
  match fs.readFile (fs.resolve crate_dir ++ ["Cargo.toml"]) with
  | none => .error .manifestUnreadable
  | some content =>
    match firstNameCapture content with
    | some n => .ok n
    | none => .ok (rpathFileName crate_dir)

/-! ### `main` (src/main.rs lines 54-122) -/

/-- The CLI surface: `cargo recent path`, `cargo recent show`, a forwarded
external cargo subcommand, or no subcommand at all. -/
inductive Mode where
  | pathMode
  | showMode
  | externalMode (args : List String)
  | noMode
deriving DecidableEq, Repr

/-- Process exit status of an `anyhow` `main`: `0` for `Ok`, `1` for `Err`. -/
def exitCode : Except Err Unit → Nat
  | .ok _ => 0
  | .error _ => 1

/-- Display form of a path (`Path::display`), as `cargo recent path` prints it. -/
def rpathDisplay : RPath → String
  | .abs cs => pathStr cs
  | .rel [] => "."
  | .rel cs => "./" ++ String.intercalate "/" cs
  | .emptyP => ""

/-- Model of `main`: the lines printed to stdout and the process outcome.
In dispatch mode the cargo invocation is attempted only after a non-empty
crate path and a crate name were obtained; a spawn failure or a non-zero
downstream exit status are surfaced as errors (lines 103-114). -/
def runMain (fs : FS) (env : Env) : Mode → List String × Except Err Unit
  | .pathMode =>
    match find_recent_crate_path fs env with
    | .error e => ([], .error e)
    | .ok p => if p = .emptyP then ([""], .ok ()) else ([rpathDisplay p], .ok ())
  | .showMode =>
    match find_recent_crate_path fs env with
    | .error e => ([], .error e)
    | .ok p =>
      if p = .emptyP then ([""], .ok ())
      else
        match get_crate_name fs p with
        | .error e => ([], .error e)
        | .ok n => ([n], .ok ())
  | .externalMode args =>
    if args = [] then ([], .error .noCargoCommand)
    else
      match find_recent_crate_path fs env with
      | .error e => ([], .error e)
      | .ok p =>
        if p = .emptyP then ([""], .ok ())
        else
          match get_crate_name fs p with
          | .error e => ([], .error e)
          | .ok _ =>
            if env.cargoSpawnOk = false then ([], .error .spawnFailed)
            else if env.cargoStatusOk = false then
              ([], .error (.downstreamFailure env.cargoStderr))
            else ([], .ok ())
  | .noMode => (["No command specified. Try cargo recent path or cargo recent show"], .ok ())

/-! ### Specification-side predicates (stated from the spec's words, for
refinement statements; the executable definitions above come from the source) -/

/-- A directory holds a manifest file. -/
def hasManifest (fs : FS) (d : AbsPath) : Prop :=
  fs.pathExists (d ++ ["Cargo.toml"]) = true

/-- A `name = "<value>"` declaration readable from an anchor suffix of the
manifest: whitespace (possibly spanning lines), the key `name`, whitespace
around `=`, then the non-empty, quote-free value enclosed in double quotes
(anything may follow).  This is the declarative shape of one regex match. -/
def specNameAt (suffix : List Char) (v : String) : Prop :=
  ∃ w1 w2 w3 rest : List Char,
    (∀ c ∈ w1, isUniWs c = true) ∧
    (∀ c ∈ w2, isUniWs c = true) ∧
    (∀ c ∈ w3, isUniWs c = true) ∧
    v.toList ≠ [] ∧
    (∀ c ∈ v.toList, c ≠ '"') ∧
    suffix =
      w1 ++ 'n' :: 'a' :: 'm' :: 'e' :: (w2 ++ '=' :: (w3 ++ '"' :: (v.toList ++ '"' :: rest)))

/-- The spec's notion of a well-formed `name = "<value>"` manifest *line*:
the declaration shape confined to a single line of the manifest. -/
def specNameLine (line : String) (v : String) : Prop :=
  specNameAt line.toList v

/-- The scanner can use a candidate path: it exists and its mtime is readable
with value `t`. -/
def goodAt (fs : FS) (p : AbsPath) (t : Nat) : Prop :=
  fs.pathExists p = true ∧ fs.mtime p = some t

/-- Invariant of the selection loop of `find_recent_crate_path` after the
lines `processed` have been handled: either nothing was ever selected and
every usable processed candidate sits exactly at the epoch, or the selected
file realises the maximal (positive) timestamp seen so far and no processed
candidate tied on that timestamp renders to a strictly smaller path string. -/
def ScanInv (fs : FS) (root : AbsPath) (processed : List String)
    (acc : Nat × Option AbsPath) : Prop :=
  (acc = (0, none) ∧ ∀ l ∈ processed, ∀ t, goodAt fs (root ++ lineComps l) t → t = 0)
  ∨ (∃ f, acc.2 = some f ∧ 0 < acc.1
      ∧ f ∈ scanCands root processed
      ∧ goodAt fs f acc.1
      ∧ (∀ l ∈ processed, ∀ t, goodAt fs (root ++ lineComps l) t → t ≤ acc.1)
      ∧ (∀ l ∈ processed, ∀ t, goodAt fs (root ++ lineComps l) t → t = acc.1 →
          strLt (pathStr (root ++ lineComps l)) (pathStr f) = false))

/-! ### Concrete fixtures used by counterexamples and witnesses -/

/-- Fixture for C1: repository `/r` with a `[workspace]` root manifest, a
sub-crate `/r/a`, a source file `/r/a/src/lib.rs` modified at `T = 100` and a
`/r/README.md` modified at `T = 200`. -/
def fsC1 : FS where
  pathExists := fun p =>
    p == ["r", ".git"] || p == ["r", "Cargo.toml"] || p == ["r", "a", "Cargo.toml"] ||
      p == ["r", "a", "src", "lib.rs"] || p == ["r", "README.md"]
  isDir := fun p => p == ["r", ".git"]
  mtime := fun p =>
    if p == ["r", "a", "src", "lib.rs"] then some 100
    else if p == ["r", "README.md"] then some 200
    else none
  readFile := fun p => if p == ["r", "Cargo.toml"] then some "[workspace]" else none
  canon := fun p => some p
  walk := fun r d =>
    if r == ["r"] && d == 3 then
      [⟨["r", "Cargo.toml"], true⟩, ⟨["r", "a", "Cargo.toml"], true⟩]
    else []
  cwd := ["r"]

/-- Diff reporting both the source file and the README. -/
def envC1 : Env := ⟨true, some "a/src/lib.rs\nREADME.md", true, true, ""⟩

/-- Diff reporting only the README (a path with no recognized suffix). -/
def envC1b : Env := ⟨true, some "README.md", true, true, ""⟩

/-- Diff reporting only a path that does not exist on disk. -/
def envC1c : Env := ⟨true, some "gone.rs", true, true, ""⟩

/-- Fixture for C2: repository root `/r` with a plain (non-workspace) root
manifest, and a nested crate `/r/a` with its own manifest. -/
def fsC2 : FS where
  pathExists := fun p =>
    p == ["r", ".git"] || p == ["r", "Cargo.toml"] || p == ["r", "a", "Cargo.toml"] ||
      p == ["r", "a", "src", "lib.rs"]
  isDir := fun p => p == ["r", ".git"]
  mtime := fun _ => none
  readFile := fun p =>
    if p == ["r", "Cargo.toml"] then some "[package]\nname = \"root\""
    else if p == ["r", "a", "Cargo.toml"] then some "[package]\nname = \"a\""
    else none
  canon := fun p => some p
  walk := fun _ _ => []
  cwd := ["r"]

/-- Fixture for the C2 witness, second conjunct: no `.git` anywhere, the
working directory `/w` holds a manifest, and so does an ancestor `/w/pkg` of
the changed file. -/
def fsC2b : FS where
  pathExists := fun p =>
    p == ["w", "Cargo.toml"] || p == ["w", "pkg", "Cargo.toml"] ||
      p == ["w", "pkg", "src", "main.rs"]
  isDir := fun _ => false
  mtime := fun _ => none
  readFile := fun p => if p == ["w", "Cargo.toml"] then some "[package]\nname = \"w\"" else none
  canon := fun p => some p
  walk := fun _ _ => []
  cwd := ["w"]

/-- Fixture for C3: a repository with a single changed file whose mtime is
exactly the Unix epoch. -/
def fsC3 : FS where
  pathExists := fun p => p == ["r", ".git"] || p == ["r", "z.rs"] || p == ["r", "Cargo.toml"]
  isDir := fun p => p == ["r", ".git"]
  mtime := fun p => if p == ["r", "z.rs"] then some 0 else none
  readFile := fun p => if p == ["r", "Cargo.toml"] then some "[package]\nname = \"r\"" else none
  canon := fun p => some p
  walk := fun _ _ => []
  cwd := ["r"]

/-- Diff reporting exactly the epoch-timestamped file. -/
def envC3 : Env := ⟨true, some "z.rs", true, true, ""⟩

/-- Fixture for the C3 witness: two changed files with distinct positive
mtimes. -/
def fsC3b : FS where
  pathExists := fun p =>
    p == ["r", ".git"] || p == ["r", "a.rs"] || p == ["r", "b.rs"] || p == ["r", "Cargo.toml"]
  isDir := fun p => p == ["r", ".git"]
  mtime := fun p =>
    if p == ["r", "a.rs"] then some 7 else if p == ["r", "b.rs"] then some 9 else none
  readFile := fun p => if p == ["r", "Cargo.toml"] then some "[package]\nname = \"r\"" else none
  canon := fun p => some p
  walk := fun _ _ => []
  cwd := ["r"]

/-- Diff reporting the two files of `fsC3b`. -/
def envC3b : Env := ⟨true, some "a.rs\nb.rs", true, true, ""⟩

/-- Fixture for C4: workspace root `/r` with nested crates `/r/a` and
`/r/a/b`; the OS happens to list `/r/a/Cargo.toml` before descending into
`/r/a/b`, a sibling order `WalkDir` is free to produce. -/
def fsC4 : FS where
  pathExists := fun p =>
    p == ["r", ".git"] || p == ["r", "Cargo.toml"] || p == ["r", "a", "Cargo.toml"] ||
      p == ["r", "a", "b", "Cargo.toml"] || p == ["r", "a", "b", "f.rs"]
  isDir := fun p => p == ["r", ".git"]
  mtime := fun _ => none
  readFile := fun p => if p == ["r", "Cargo.toml"] then some "[workspace]" else none
  canon := fun p => some p
  walk := fun r d =>
    if r == ["r"] && d == 3 then
      [⟨["r", "Cargo.toml"], true⟩, ⟨["r", "a", "Cargo.toml"], true⟩,
        ⟨["r", "a", "b", "Cargo.toml"], true⟩]
    else []
  cwd := ["r"]

/-- Fixture for C5: workspace root `/r` with one sub-crate `/r/a`, and a
changed file `/r/x.rs` that no sub-crate directory contains. -/
def fsC5 : FS where
  pathExists := fun p =>
    p == ["r", ".git"] || p == ["r", "Cargo.toml"] || p == ["r", "a", "Cargo.toml"] ||
      p == ["r", "x.rs"]
  isDir := fun p => p == ["r", ".git"]
  mtime := fun _ => none
  readFile := fun p => if p == ["r", "Cargo.toml"] then some "[workspace]" else none
  canon := fun p => some p
  walk := fun r d =>
    if r == ["r"] && d == 3 then
      [⟨["r", "Cargo.toml"], true⟩, ⟨["r", "a", "Cargo.toml"], true⟩]
    else []
  cwd := ["r"]

/-- Fixture for C6: a repository where `git diff` outputs only whitespace. -/
def fsC6 : FS where
  pathExists := fun p => p == ["r", ".git"]
  isDir := fun p => p == ["r", ".git"]
  mtime := fun _ => none
  readFile := fun _ => none
  canon := fun p => some p
  walk := fun _ _ => []
  cwd := ["r"]

/-- Whitespace-only diff output. -/
def envC6 : Env := ⟨true, some " \n", true, true, ""⟩

/-- Fixture for C7: a crate directory `/w` whose manifest declares
`name = "test-crate"`. -/
def fsC7 : FS where
  pathExists := fun p => p == ["w", "Cargo.toml"]
  isDir := fun _ => false
  mtime := fun _ => none
  readFile := fun p =>
    if p == ["w", "Cargo.toml"] then
      some "[package]\nname = \"test-crate\"\nversion = \"0.1.0\""
    else none
  canon := fun p => some p
  walk := fun _ _ => []
  cwd := ["w"]

/-- Fixture for C8 (the spec's end-to-end layout): workspace root `/r`,
sub-crate `/r/a` declaring `name = "a"`, changed file `/r/a/src/lib.rs`. -/
def fsC8 : FS where
  pathExists := fun p =>
    p == ["r", ".git"] || p == ["r", "Cargo.toml"] || p == ["r", "a", "Cargo.toml"] ||
      p == ["r", "a", "src", "lib.rs"]
  isDir := fun p => p == ["r", ".git"]
  mtime := fun p => if p == ["r", "a", "src", "lib.rs"] then some 100 else none
  readFile := fun p =>
    if p == ["r", "Cargo.toml"] then some "[workspace]\nmembers = [\"a\"]"
    else if p == ["r", "a", "Cargo.toml"] then some "[package]\nname = \"a\""
    else none
  canon := fun p => some p
  walk := fun r d =>
    if r == ["r"] && d == 3 then
      [⟨["r", "Cargo.toml"], true⟩, ⟨["r", "a", "Cargo.toml"], true⟩]
    else []
  cwd := ["r"]

/-- Fixture for the C7 counterexample: a manifest whose leftmost regex match
spans lines (`name`, newline, `= "z"`) and precedes a well-formed
`name = "v"` line. -/
def fsC7x : FS where
  pathExists := fun p => p == ["w", "Cargo.toml"]
  isDir := fun _ => false
  mtime := fun _ => none
  readFile := fun p =>
    if p == ["w", "Cargo.toml"] then some "name\n= \"z\"\nname = \"v\"" else none
  canon := fun p => some p
  walk := fun _ _ => []
  cwd := ["w"]

/-- Fixture for the C7 counterexample, second part: a manifest whose only
`name` declaration carries a value spanning lines (`name = "a`, newline,
`b"`), so no single line is well-formed. -/
def fsC7y : FS where
  pathExists := fun p => p == ["w", "Cargo.toml"]
  isDir := fun _ => false
  mtime := fun _ => none
  readFile := fun p =>
    if p == ["w", "Cargo.toml"] then some "name = \"a\nb\"" else none
  canon := fun p => some p
  walk := fun _ _ => []
  cwd := ["w"]

/-- Fixture for the C8 counterexample: the `fsC8` workspace layout, with the
sub-crate manifest of `fsC7x` (a cross-line match shadowing the well-formed
`name = "v"` line). -/
def fsC8x : FS where
  pathExists := fun p =>
    p == ["r", ".git"] || p == ["r", "Cargo.toml"] || p == ["r", "a", "Cargo.toml"] ||
      p == ["r", "a", "src", "lib.rs"]
  isDir := fun p => p == ["r", ".git"]
  mtime := fun p => if p == ["r", "a", "src", "lib.rs"] then some 100 else none
  readFile := fun p =>
    if p == ["r", "Cargo.toml"] then some "[workspace]\nmembers = [\"a\"]"
    else if p == ["r", "a", "Cargo.toml"] then some "name\n= \"z\"\nname = \"v\""
    else none
  canon := fun p => some p
  walk := fun r d =>
    if r == ["r"] && d == 3 then
      [⟨["r", "Cargo.toml"], true⟩, ⟨["r", "a", "Cargo.toml"], true⟩]
    else []
  cwd := ["r"]

/-- Fixture for C9: a repository whose root is a plain crate named `demo`
with one changed file. -/
def fsC9 : FS where
  pathExists := fun p =>
    p == ["r", ".git"] || p == ["r", "Cargo.toml"] || p == ["r", "x.rs"]
  isDir := fun p => p == ["r", ".git"]
  mtime := fun p => if p == ["r", "x.rs"] then some 5 else none
  readFile := fun p => if p == ["r", "Cargo.toml"] then some "[package]\nname = \"demo\"" else none
  canon := fun p => some p
  walk := fun _ _ => []
  cwd := ["r"]

/-- Environment for C9: diff reports the file, the forwarded cargo command
spawns but exits non-zero. -/
def envC9 : Env := ⟨true, some "x.rs", true, false, "build failed"⟩

/-- Fixture for C10: no `.git` directory exists anywhere above the working
directory. -/
def fsC10 : FS where
  pathExists := fun p => p == ["x", "Cargo.toml"]
  isDir := fun _ => false
  mtime := fun _ => none
  readFile := fun p => if p == ["x", "Cargo.toml"] then some "[package]\nname = \"x\"" else none
  canon := fun p => some p
  walk := fun _ _ => []
  cwd := ["x"]

/-- An environment whose diff succeeds. -/
def envC10a : Env := ⟨true, some "x.rs", true, true, ""⟩

/-- An environment whose diff fails; C10 shows the outcome cannot depend on
the difference. -/
def envC10b : Env := ⟨false, none, true, true, ""⟩

/-! ### Helper lemmas -/

/-- A `findSome?` over a list all of whose elements fail yields nothing. -/
lemma findSome?_none_of_all {α β : Type} {f : α → Option β} {l : List α}
    (h : ∀ x ∈ l, f x = none) : l.findSome? f = none := by
  induction l with
  | nil => rfl
  | cons x xs ih =>
    have hx := h x (by simp)
    simp only [List.findSome?]
    rw [hx]
    exact ih (fun y hy => h y (by simp [hy]))

/-- A `findSome?` returns the image of the first succeeding element. -/
lemma findSome?_append_first {α β : Type} {f : α → Option β} {b : β}
    (pre : List α) (x : α) (post : List α)
    (hpre : ∀ y ∈ pre, f y = none) (hx : f x = some b) :
    (pre ++ x :: post).findSome? f = some b := by
  induction pre with
  | nil =>
    simp only [List.nil_append, List.findSome?]
    rw [hx]
  | cons y ys ih =>
    have hy := hpre y (by simp)
    simp only [List.cons_append, List.findSome?]
    rw [hy]
    exact ih (fun z hz => hpre z (by simp [hz]))

/-- Strict lexicographic order is irreflexive. -/
lemma lexLt_irrefl : ∀ l : List Char, lexLt l l = false
  | [] => rfl
  | a :: as => by simp [lexLt, lexLt_irrefl as]

/-- Strict lexicographic order is transitive. -/
lemma lexLt_trans : ∀ (a b c : List Char),
    lexLt a b = true → lexLt b c = true → lexLt a c = true
  | [], [], _, hab, _ => by simp [lexLt] at hab
  | [], _ :: _, [], _, hbc => by simp [lexLt] at hbc
  | [], _ :: _, _ :: _, _, _ => by simp [lexLt]
  | _ :: _, [], _, hab, _ => by simp [lexLt] at hab
  | _ :: _, _ :: _, [], _, hbc => by simp [lexLt] at hbc
  | x :: xs, y :: ys, z :: zs, hab, hbc => by
    simp only [lexLt] at hab hbc ⊢
    by_cases hxy : x.toNat < y.toNat
    · by_cases hyz : y.toNat < z.toNat
      · simp [Nat.lt_trans hxy hyz]
      · by_cases hzy : z.toNat < y.toNat
        · simp [hyz, hzy] at hbc
        · have heq : y.toNat = z.toNat :=
            Nat.le_antisymm (Nat.not_lt.mp hzy) (Nat.not_lt.mp hyz)
          have : x.toNat < z.toNat := heq ▸ hxy
          simp [this]
    · by_cases hyx : y.toNat < x.toNat
      · simp [hxy, hyx] at hab
      · have hxy' : x.toNat = y.toNat :=
          Nat.le_antisymm (Nat.not_lt.mp hyx) (Nat.not_lt.mp hxy)
        simp only [hxy, hyx, if_false, if_neg] at hab
        by_cases hyz : y.toNat < z.toNat
        · have : x.toNat < z.toNat := by omega
          simp [this]
        · by_cases hzy : z.toNat < y.toNat
          · simp [hyz, hzy] at hbc
          · rw [if_neg hyz, if_neg hzy] at hbc
            have h3 : ¬ x.toNat < z.toNat := by omega
            have h4 : ¬ z.toNat < x.toNat := by omega
            rw [if_neg h3, if_neg h4]
            exact lexLt_trans xs ys zs hab hbc

/-- Irreflexivity of the program's string order. -/
lemma strLt_irrefl (s : String) : strLt s s = false := lexLt_irrefl _

/-- Transitivity of the program's string order. -/
lemma strLt_trans {a b c : String} (h1 : strLt a b = true) (h2 : strLt b c = true) :
    strLt a c = true := lexLt_trans _ _ _ h1 h2

/-- Timestamps of one path agree (the mtime oracle is a function). -/
lemma goodAt_mtime_eq {fs : FS} {p : AbsPath} {t t' : Nat}
    (h : goodAt fs p t') (h' : fs.mtime p = some t) : t' = t :=
  Option.some.inj (h.2.symm.trans h')

/-- One step of the selection loop preserves the scan invariant. -/
lemma scanInv_step (fs : FS) (root : AbsPath) (processed : List String)
    (acc : Nat × Option AbsPath) (l : String)
    (h : ScanInv fs root processed acc) :
    ScanInv fs root (processed ++ [l]) (scanStep fs root acc l) := by
  obtain ⟨t0, opt⟩ := acc
  have hmemNew : root ++ lineComps l ∈ scanCands root (processed ++ [l]) := by
    unfold scanCands
    rw [List.map_append]
    exact List.mem_append_right _ (by simp)
  have hmemOld : ∀ g : AbsPath, g ∈ scanCands root processed →
      g ∈ scanCands root (processed ++ [l]) := by
    intro g hg
    unfold scanCands at hg ⊢
    rw [List.map_append]
    exact List.mem_append_left _ hg
  by_cases hex : fs.pathExists (root ++ lineComps l) = true
  case neg =>
    have hstep : scanStep fs root (t0, opt) l = (t0, opt) := by
      simp [scanStep, hex]
    rw [hstep]
    rcases h with ⟨hacc, hall⟩ | ⟨f, hf2, hpos, hmemf, hgood, hle, htie⟩
    · refine Or.inl ⟨hacc, ?_⟩
      intro l' hl' t hg
      rcases List.mem_append.mp hl' with h' | h'
      · exact hall l' h' t hg
      · rw [List.mem_singleton.mp h'] at hg
        exact absurd hg.1 hex
    · refine Or.inr ⟨f, hf2, hpos, hmemOld f hmemf, hgood, ?_, ?_⟩
      · intro l' hl' t hg
        rcases List.mem_append.mp hl' with h' | h'
        · exact hle l' h' t hg
        · rw [List.mem_singleton.mp h'] at hg
          exact absurd hg.1 hex
      · intro l' hl' t hg hteq
        rcases List.mem_append.mp hl' with h' | h'
        · exact htie l' h' t hg hteq
        · rw [List.mem_singleton.mp h'] at hg
          exact absurd hg.1 hex
  case pos =>
    cases hmt : fs.mtime (root ++ lineComps l) with
    | none =>
      have hstep : scanStep fs root (t0, opt) l = (t0, opt) := by
        simp [scanStep, hex, hmt]
      rw [hstep]
      rcases h with ⟨hacc, hall⟩ | ⟨f, hf2, hpos, hmemf, hgood, hle, htie⟩
      · refine Or.inl ⟨hacc, ?_⟩
        intro l' hl' t hg
        rcases List.mem_append.mp hl' with h' | h'
        · exact hall l' h' t hg
        · rw [List.mem_singleton.mp h'] at hg
          rw [hg.2] at hmt
          exact Option.noConfusion hmt
      · refine Or.inr ⟨f, hf2, hpos, hmemOld f hmemf, hgood, ?_, ?_⟩
        · intro l' hl' t hg
          rcases List.mem_append.mp hl' with h' | h'
          · exact hle l' h' t hg
          · rw [List.mem_singleton.mp h'] at hg
            rw [hg.2] at hmt
            exact Option.noConfusion hmt
        · intro l' hl' t hg hteq
          rcases List.mem_append.mp hl' with h' | h'
          · exact htie l' h' t hg hteq
          · rw [List.mem_singleton.mp h'] at hg
            rw [hg.2] at hmt
            exact Option.noConfusion hmt
    | some t =>
      rcases h with ⟨hacc, hall⟩ | ⟨f, hf2, hpos, hmemf, hgood, hle, htie⟩
      · -- nothing selected yet: t0 = 0, opt = none
        have ht0 : t0 = 0 := congrArg Prod.fst hacc
        have hopt : opt = none := congrArg Prod.snd hacc
        subst ht0; subst hopt
        by_cases hlt : (0 : Nat) < t
        · have hstep : scanStep fs root (0, none) l = (t, some (root ++ lineComps l)) := by
            simp [scanStep, hex, hmt, hlt]
          rw [hstep]
          refine Or.inr ⟨root ++ lineComps l, rfl, hlt, hmemNew, ⟨hex, hmt⟩, ?_, ?_⟩
          · intro l' hl' t' hg
            rcases List.mem_append.mp hl' with h' | h'
            · have := hall l' h' t' hg
              omega
            · rw [List.mem_singleton.mp h'] at hg
              rw [goodAt_mtime_eq hg hmt]
          · intro l' hl' t' hg hteq
            rcases List.mem_append.mp hl' with h' | h'
            · have := hall l' h' t' hg
              omega
            · rw [List.mem_singleton.mp h']
              exact strLt_irrefl _
        · have ht : t = 0 := by omega
          have hstep : scanStep fs root (0, none) l = (0, none) := by
            simp [scanStep, hex, hmt, hlt]
          rw [hstep]
          refine Or.inl ⟨rfl, ?_⟩
          intro l' hl' t' hg
          rcases List.mem_append.mp hl' with h' | h'
          · exact hall l' h' t' hg
          · rw [List.mem_singleton.mp h'] at hg
            rw [goodAt_mtime_eq hg hmt, ht]
      · -- a file f is selected with timestamp t0 > 0
        have hopt : opt = some f := hf2
        subst hopt
        by_cases hlt : t0 < t
        · have hstep : scanStep fs root (t0, some f) l = (t, some (root ++ lineComps l)) := by
            simp [scanStep, hex, hmt, hlt]
          rw [hstep]
          refine Or.inr ⟨root ++ lineComps l, rfl, by omega, hmemNew, ⟨hex, hmt⟩, ?_, ?_⟩
          · intro l' hl' t' hg
            rcases List.mem_append.mp hl' with h' | h'
            · have := hle l' h' t' hg
              omega
            · rw [List.mem_singleton.mp h'] at hg
              rw [goodAt_mtime_eq hg hmt]
          · intro l' hl' t' hg hteq
            rcases List.mem_append.mp hl' with h' | h'
            · have := hle l' h' t' hg
              omega
            · rw [List.mem_singleton.mp h']
              exact strLt_irrefl _
        · by_cases hteq : t = t0
          · by_cases hcmp : strLt (pathStr (root ++ lineComps l)) (pathStr f) = true
            · have hstep : scanStep fs root (t0, some f) l = (t0, some (root ++ lineComps l)) := by
                simp [scanStep, hex, hmt, hlt, hteq, hcmp]
              rw [hstep]
              refine Or.inr ⟨root ++ lineComps l, rfl, hpos, hmemNew, ⟨hex, hteq ▸ hmt⟩, ?_, ?_⟩
              · intro l' hl' t' hg
                rcases List.mem_append.mp hl' with h' | h'
                · exact hle l' h' t' hg
                · rw [List.mem_singleton.mp h'] at hg
                  have := goodAt_mtime_eq hg hmt
                  omega
              · intro l' hl' t' hg ht'
                rcases List.mem_append.mp hl' with h' | h'
                · have hfalse := htie l' h' t' hg ht'
                  rcases Bool.eq_false_or_eq_true
                      (strLt (pathStr (root ++ lineComps l')) (pathStr (root ++ lineComps l)))
                    with hb | hb
                  · rw [strLt_trans hb hcmp] at hfalse
                    exact Bool.noConfusion hfalse
                  · exact hb
                · rw [List.mem_singleton.mp h']
                  exact strLt_irrefl _
            · have hstep : scanStep fs root (t0, some f) l = (t0, some f) := by
                simp [scanStep, hex, hmt, hlt, hteq, hcmp]
              rw [hstep]
              refine Or.inr ⟨f, rfl, hpos, hmemOld f hmemf, hgood, ?_, ?_⟩
              · intro l' hl' t' hg
                rcases List.mem_append.mp hl' with h' | h'
                · exact hle l' h' t' hg
                · rw [List.mem_singleton.mp h'] at hg
                  have := goodAt_mtime_eq hg hmt
                  omega
              · intro l' hl' t' hg ht'
                rcases List.mem_append.mp hl' with h' | h'
                · exact htie l' h' t' hg ht'
                · rw [List.mem_singleton.mp h']
                  rcases Bool.eq_false_or_eq_true
                      (strLt (pathStr (root ++ lineComps l)) (pathStr f)) with hb | hb
                  · exact absurd hb hcmp
                  · exact hb
          · have hstep : scanStep fs root (t0, some f) l = (t0, some f) := by
              simp [scanStep, hex, hmt, hlt, hteq]
            rw [hstep]
            refine Or.inr ⟨f, rfl, hpos, hmemOld f hmemf, hgood, ?_, ?_⟩
            · intro l' hl' t' hg
              rcases List.mem_append.mp hl' with h' | h'
              · exact hle l' h' t' hg
              · rw [List.mem_singleton.mp h'] at hg
                have := goodAt_mtime_eq hg hmt
                omega
            · intro l' hl' t' hg ht'
              rcases List.mem_append.mp hl' with h' | h'
              · exact htie l' h' t' hg ht'
              · rw [List.mem_singleton.mp h'] at hg
                have := goodAt_mtime_eq hg hmt
                omega

/-- The scan invariant is preserved along the whole fold. -/
lemma scanInv_fold (fs : FS) (root : AbsPath) :
    ∀ (lines processed : List String) (acc : Nat × Option AbsPath),
      ScanInv fs root processed acc →
      ScanInv fs root (processed ++ lines) (lines.foldl (scanStep fs root) acc)
  | [], processed, acc, h => by simpa using h
  | l :: ls, processed, acc, h => by
    have h1 := scanInv_step fs root processed acc l h
    have h2 := scanInv_fold fs root ls (processed ++ [l]) (scanStep fs root acc l) h1
    simpa [List.append_assoc] using h2

/-- The final accumulator of the selection loop satisfies the invariant. -/
lemma scanSelect_inv (fs : FS) (root : AbsPath) (lines : List String) :
    ScanInv fs root lines (lines.foldl (scanStep fs root) (0, none)) := by
  have h0 : ScanInv fs root [] (0, none) := Or.inl ⟨rfl, by simp⟩
  simpa using scanInv_fold fs root lines [] (0, none) h0

/-- The fallback of `find_crate_directory` never reports `NoValidChange`. -/
lemma fcdFallback_ne_noValidChange (fs : FS) (file : AbsPath) :
    fcdFallback fs file ≠ .error .noValidChange := by
  unfold fcdFallback
  repeat' split
  all_goals simp

/-- The resolver never reports `NoValidChange` (that error is the scanner's);
hence a `NoValidChange` outcome pins down the scanner's selection. -/
lemma fcd_ne_noValidChange (fs : FS) (file : AbsPath) :
    find_crate_directory fs file ≠ .error .noValidChange := by
  unfold find_crate_directory
  repeat' split
  all_goals first
    | exact fcdFallback_ne_noValidChange fs file
    | simp

/-- A proper prefix is still a prefix after the last element is dropped. -/
lemma prefix_dropLast_of_lt {α : Type} {q p : List α} (hq : q <+: p)
    (hlt : q.length < p.length) : q <+: p.dropLast := by
  obtain ⟨t, rfl⟩ := hq
  have ht : t ≠ [] := by
    intro he
    subst he
    simp at hlt
  rw [List.dropLast_append_of_ne_nil q ht]
  exact ⟨t.dropLast, rfl⟩

/-- Characterisation of the manifest ascent: it returns `d` exactly when `d`
is the longest non-root ancestor (prefix) of the start directory holding a
manifest — every strictly longer ancestor lacks one. -/
lemma ascendLoop_some_iff (fs : FS) (d : AbsPath) :
    ∀ (fuel : Nat) (p : AbsPath), p.length < fuel →
      (ascendLoop fs fuel p = some d ↔
        (d ≠ [] ∧ d <+: p ∧ hasManifest fs d ∧
          ∀ q, q <+: p → d.length < q.length → ¬ hasManifest fs q))
  | 0, p, h => absurd h (by omega)
  | fuel + 1, p, h => by
    by_cases hp : p = []
    · subst hp
      simp only [ascendLoop, if_pos rfl]
      constructor
      · intro hcontra
        exact Option.noConfusion hcontra
      · rintro ⟨hd0, hpre, _, _⟩
        exact absurd (List.prefix_nil.mp hpre) hd0
    · simp only [ascendLoop, if_neg hp]
      by_cases hm : fs.pathExists (p ++ ["Cargo.toml"]) = true
      · simp only [if_pos hm]
        constructor
        · intro hsome
          obtain rfl : p = d := Option.some.inj hsome
          refine ⟨hp, List.prefix_refl p, hm, ?_⟩
          intro q hq hlen _
          have := hq.length_le
          omega
        · rintro ⟨hd0, hpre, hmd, hq⟩
          have hlen : d.length ≤ p.length := hpre.length_le
          by_cases hdp : d.length = p.length
          · rw [hpre.eq_of_length hdp]
          · exact absurd hm (hq p (List.prefix_refl p) (by omega))
      · simp only [if_neg hm]
        have hfuel : p.dropLast.length < fuel := by
          have h1 := List.length_dropLast p
          have h2 : 0 < p.length := List.length_pos.mpr hp
          omega
        rw [ascendLoop_some_iff fs d fuel p.dropLast hfuel]
        constructor
        · rintro ⟨hd0, hpre, hmd, hq⟩
          refine ⟨hd0, hpre.trans (List.dropLast_prefix p), hmd, ?_⟩
          intro q hqp hlen
          by_cases hqe : q = p
          · subst hqe
            exact hm
          · have hlt : q.length < p.length :=
              lt_of_le_of_ne hqp.length_le (fun he => hqe (hqp.eq_of_length he))
            exact hq q (prefix_dropLast_of_lt hqp hlt) hlen
        · rintro ⟨hd0, hpre, hmd, hq⟩
          have hdp : d ≠ p := by
            intro he
            subst he
            exact hm hmd
          have hlt : d.length < p.length :=
            lt_of_le_of_ne hpre.length_le (fun he => hdp (hpre.eq_of_length he))
          refine ⟨hd0, prefix_dropLast_of_lt hpre hlt, hmd, ?_⟩
          intro q hqd hlen
          exact hq q (hqd.trans (List.dropLast_prefix p)) hlen

/-- Semantic form of `ascendCargo`. -/
lemma ascendCargo_some_iff (fs : FS) (start d : AbsPath) :
    ascendCargo fs start = some d ↔
      (d ≠ [] ∧ d <+: start ∧ hasManifest fs d ∧
        ∀ q, q <+: start → d.length < q.length → ¬ hasManifest fs q) :=
  ascendLoop_some_iff fs d (start.length + 1) start (by omega)

/-- Leading whitespace is transparent to `dropWs`. -/
lemma dropWs_ws_append (w l : List Char) (hw : ∀ c ∈ w, isUniWs c = true) :
    dropWs (w ++ l) = dropWs l := by
  induction w with
  | nil => rfl
  | cons c cs ih =>
    have hc := hw c (by simp)
    simp only [List.cons_append, dropWs, hc, if_true]
    exact ih (fun x hx => hw x (by simp [hx]))

/-- A list headed by a non-whitespace character survives `dropWs` intact. -/
lemma dropWs_cons_not (c : Char) (l : List Char) (hc : isUniWs c = false) :
    dropWs (c :: l) = c :: l := by
  simp [dropWs, hc]

/-- Every list splits as a whitespace run followed by its `dropWs` tail. -/
lemma dropWs_decomp (l : List Char) :
    ∃ w, (∀ c ∈ w, isUniWs c = true) ∧ l = w ++ dropWs l := by
  induction l with
  | nil => exact ⟨[], by simp, rfl⟩
  | cons c cs ih =>
    by_cases hc : isUniWs c = true
    · obtain ⟨w, hw, he⟩ := ih
      refine ⟨c :: w, ?_, ?_⟩
      · intro x hx
        rcases List.mem_cons.mp hx with rfl | hx
        · exact hc
        · exact hw x hx
      · have hd : dropWs (c :: cs) = dropWs cs := by simp [dropWs, hc]
        rw [hd, List.cons_append]
        exact congrArg (c :: ·) he
    · have hc' : isUniWs c = false := by
        revert hc
        cases isUniWs c <;> simp
      refine ⟨[], by simp, ?_⟩
      rw [dropWs_cons_not c cs hc']
      rfl

/-- `takeWhile`/`dropWhile` on a satisfying run closed by a failing element. -/
lemma takeWhile_append_stop {p : Char → Bool} (v : List Char) (x : Char) (rest : List Char)
    (hv : ∀ c ∈ v, p c = true) (hx : p x = false) :
    (v ++ x :: rest).takeWhile p = v ∧ (v ++ x :: rest).dropWhile p = x :: rest := by
  induction v with
  | nil => simp [List.takeWhile_cons, List.dropWhile_cons, hx]
  | cons c cs ih =>
    have hc := hv c (by simp)
    obtain ⟨ht, hd⟩ := ih (fun y hy => hv y (by simp [hy]))
    constructor
    · simp [List.takeWhile_cons, hc, ht]
    · simp [List.dropWhile_cons, hc, hd]

/-- Elements of a `takeWhile` satisfy the predicate. -/
lemma mem_takeWhile_prop {p : Char → Bool} :
    ∀ (l : List Char), ∀ x ∈ l.takeWhile p, p x = true
  | [], x, hx => by simp [List.takeWhile] at hx
  | c :: cs, x, hx => by
    rw [List.takeWhile_cons] at hx
    by_cases hc : p c = true
    · rw [if_pos hc] at hx
      rcases List.mem_cons.mp hx with rfl | hx
      · exact hc
      · exact mem_takeWhile_prop cs x hx
    · rw [if_neg hc] at hx
      simp at hx

/-- The head surviving a `dropWhile` fails the predicate. -/
lemma dropWhile_head_false {p : Char → Bool} :
    ∀ (l : List Char) (x : Char) (xs : List Char), l.dropWhile p = x :: xs → p x = false
  | [], x, xs, h => by simp [List.dropWhile] at h
  | c :: cs, x, xs, h => by
    rw [List.dropWhile_cons] at h
    by_cases hc : p c = true
    · rw [if_pos hc] at h
      exact dropWhile_head_false cs x xs h
    · rw [if_neg hc] at h
      injection h with h1 h2
      subst h1
      cases hpc : p c with
      | false => rfl
      | true => exact absurd hpc hc

/-- A non-empty list is not `isEmpty`. -/
lemma isEmpty_false_of_ne_nil {α : Type} {l : List α} (h : l ≠ []) : l.isEmpty = false := by
  cases l with
  | nil => exact absurd rfl h
  | cons a as => rfl

/-- Rebuilding a string from its characters is the identity. -/
lemma strMk_toList (s : String) : String.mk s.toList = s := rfl

/-- The characters of a rebuilt string are the original list. -/
lemma toList_strMk (l : List Char) : (String.mk l).toList = l := rfl

/-- The capture parser accepts exactly a quoted non-empty quote-free run. -/
lemma parseNameCapture_complete (v rest : List Char) (hne : v ≠ [])
    (hq : ∀ c ∈ v, c ≠ '"') :
    parseNameCapture (v ++ '"' :: rest) = some v := by
  have hv : ∀ c ∈ v, (c != '"') = true := fun c hc => by simp [bne_iff_ne, hq c hc]
  have hx : (('"' : Char) != '"') = false := by decide
  obtain ⟨ht, hd⟩ := takeWhile_append_stop v '"' rest hv hx
  unfold parseNameCapture
  rw [ht, hd, isEmpty_false_of_ne_nil hne]
  simp

/-- Completeness of the anchored match attempt against the declarative
`name = "<value>"` shape. -/
lemma parseNameFrom_complete {l : List Char} {v : String} (h : specNameAt l v) :
    parseNameFrom l = some v.toList := by
  obtain ⟨w1, w2, w3, rest, hw1, hw2, hw3, hne, hq, heq⟩ := h
  have h1 : dropWs l =
      'n' :: 'a' :: 'm' :: 'e' :: (w2 ++ '=' :: (w3 ++ '"' :: (v.toList ++ '"' :: rest))) := by
    rw [heq, dropWs_ws_append w1 _ hw1]
    exact dropWs_cons_not 'n' _ (by decide)
  have h2 : dropWs (w2 ++ '=' :: (w3 ++ '"' :: (v.toList ++ '"' :: rest))) =
      '=' :: (w3 ++ '"' :: (v.toList ++ '"' :: rest)) := by
    rw [dropWs_ws_append w2 _ hw2]
    exact dropWs_cons_not '=' _ (by decide)
  have h3 : dropWs (w3 ++ '"' :: (v.toList ++ '"' :: rest)) =
      '"' :: (v.toList ++ '"' :: rest) := by
    rw [dropWs_ws_append w3 _ hw3]
    exact dropWs_cons_not '"' _ (by decide)
  have h4 : parseNameCapture (v.toList ++ '"' :: rest) = some v.toList :=
    parseNameCapture_complete v.toList rest hne hq
  unfold parseNameFrom
  rw [h1]
  simp only [String.toList] at h2 h3 h4 ⊢
  simp [h2, h3, h4]

/-- Soundness of the anchored match attempt: a successful parse exhibits the
declarative `name = "<value>"` shape with the captured value. -/
lemma parseNameFrom_sound {l : List Char} {cap : List Char}
    (h : parseNameFrom l = some cap) : specNameAt l (String.mk cap) := by
  unfold parseNameFrom at h
  split at h <;> try exact Option.noConfusion h
  rename_i c1 c2 c3 c4 r1 heq1
  by_cases hc : c1 = 'n' ∧ c2 = 'a' ∧ c3 = 'm' ∧ c4 = 'e'
  case neg =>
    rw [if_neg hc] at h
    exact Option.noConfusion h
  obtain ⟨rfl, rfl, rfl, rfl⟩ := hc
  rw [if_pos ⟨rfl, rfl, rfl, rfl⟩] at h
  split at h <;> try exact Option.noConfusion h
  rename_i c5 r2 heq2
  by_cases hc5 : c5 = '='
  case neg =>
    rw [if_neg hc5] at h
    exact Option.noConfusion h
  subst hc5
  rw [if_pos rfl] at h
  split at h <;> try exact Option.noConfusion h
  rename_i c6 r3 heq3
  by_cases hc6 : c6 = '"'
  case neg =>
    rw [if_neg hc6] at h
    exact Option.noConfusion h
  subst hc6
  rw [if_pos rfl] at h
  unfold parseNameCapture at h
  by_cases hempty : (r3.takeWhile (fun c => c != '"')).isEmpty = true
  case pos =>
    rw [if_pos hempty] at h
    exact Option.noConfusion h
  rw [if_neg hempty] at h
  split at h <;> try exact Option.noConfusion h
  rename_i x xs heqd
  by_cases hx : x = '"'
  case neg =>
    rw [if_neg hx] at h
    exact Option.noConfusion h
  subst hx
  rw [if_pos rfl] at h
  have hcapeq : r3.takeWhile (fun c => c != '"') = cap := Option.some.inj h
  have hvl : (String.mk cap).toList = cap := toList_strMk cap
  obtain ⟨w1, hww1, hdec1⟩ := dropWs_decomp l
  obtain ⟨w2, hww2, hdec2⟩ := dropWs_decomp r1
  obtain ⟨w3, hww3, hdec3⟩ := dropWs_decomp r2
  have hr3 : r3 = cap ++ '"' :: xs := by
    conv_lhs => rw [← List.takeWhile_append_dropWhile (p := fun c => c != '"') (l := r3)]
    rw [hcapeq, heqd]
  refine ⟨w1, w2, w3, xs, hww1, hww2, hww3, ?_, ?_, ?_⟩
  · rw [hvl]
    intro hcontra
    rw [hcontra] at hcapeq
    rw [hcapeq] at hempty
    exact hempty rfl
  · intro c hcmem
    rw [hvl] at hcmem
    rw [← hcapeq] at hcmem
    have := mem_takeWhile_prop r3 c hcmem
    simpa [bne_iff_ne] using this
  · rw [hdec1, heq1, hdec2, heq2, hdec3, heq3, hr3, hvl]

/-- Shared specification of `get_crate_name` on a manifest whose first
matching anchor carries value `v` (every earlier anchor admits no match):
the extraction returns exactly `v`. -/
lemma get_crate_name_leftmost (fs : FS) (dir : RPath)
    (content : String) (pre : List (List Char)) (suf : List Char) (post : List (List Char))
    (v : String)
    (hread : fs.readFile (fs.resolve dir ++ ["Cargo.toml"]) = some content)
    (hdec : anchors content.toList = pre ++ suf :: post)
    (hpre : ∀ s' ∈ pre, ∀ v', ¬ specNameAt s' v')
    (hln : specNameAt suf v) :
    get_crate_name fs dir = .ok v := by
  have hfind : (anchors content.toList).findSome? parseNameFrom = some v.toList := by
    rw [hdec]
    refine findSome?_append_first pre suf post ?_ (parseNameFrom_complete hln)
    intro y hy
    cases hp : parseNameFrom y with
    | none => rfl
    | some cap => exact absurd (parseNameFrom_sound hp) (hpre y hy (String.mk cap))
  have hfc : firstNameCapture content = some v := by
    unfold firstNameCapture
    rw [hfind]
    simp [strMk_toList]
  unfold get_crate_name
  rw [hread]
  simp [hfc]

/-! ### Claim theorems -/

/-- C1, counterexample: the Change Scanner applies no suffix or manifest-name
filter.  In a repository whose diff reports `a/src/lib.rs` (mtime 100) and
`README.md` (mtime 200), the scanner selects `/r/README.md` — a path with no
recognized source suffix wins because its mtime is latest — and a diff
reporting only `README.md` does not fail with `NoValidChange`, contradicting
the claim. -/
theorem C1_counterexample :
    scanSelect fsC1 ["r"] (rustLines "a/src/lib.rs\nREADME.md") = some ["r", "README.md"]
    ∧ fsC1.mtime ["r", "README.md"] = some 200
    ∧ fsC1.mtime ["r", "a", "src", "lib.rs"] = some 100
    ∧ find_recent_crate_path fsC1 envC1 ≠ .error .noValidChange
    ∧ find_recent_crate_path fsC1 envC1b = .ok (.abs ["r"])
    ∧ find_recent_crate_path fsC1 envC1b ≠ .error .noValidChange := by decide

/-- C1, amended: the scanner applies no filename filter at all.  Under a
located repository root and a successfully decoded, non-empty diff output,
the run ends in the `NoValidChange` error precisely when no reported
path (whatever its suffix) exists on disk with readable metadata and a
timestamp strictly after the epoch; in particular any existing stat-able
reported file with a positive timestamp — a `README.md` included — prevents
that error and competes for selection. -/
theorem C1_scanner_unfiltered (fs : FS) (env : Env) (r : AbsPath) (out : String)
    (h1 : find_repo_root fs = some r)
    (h2 : env.gitDiffOk = true)
    (h3 : env.gitDiffStdout = some out)
    (h4 : rustTrim out ≠ "") :
    find_recent_crate_path fs env = .error .noValidChange ↔
      ∀ g ∈ scanCands r (rustLines out), ∀ t, fs.pathExists g = true →
        fs.mtime g = some t → t = 0 := by
  have hinv := scanSelect_inv fs r (rustLines out)
  constructor
  · intro hres
    have hsel : scanSelect fs r (rustLines out) = none := by
      cases hsel : scanSelect fs r (rustLines out) with
      | none => rfl
      | some sel =>
        exfalso
        have hpipe : find_recent_crate_path fs env = find_crate_directory fs sel := by
          unfold find_recent_crate_path
          rw [h1]
          simp [h2, h3, h4, hsel]
        rw [hpipe] at hres
        exact fcd_ne_noValidChange fs sel hres
    rcases hinv with ⟨hacc, hall⟩ | ⟨f, hf2, _⟩
    · intro g hg t hext hmtg
      unfold scanCands at hg
      obtain ⟨lg, hlg, hfg⟩ := List.mem_map.mp hg
      subst hfg
      exact hall lg hlg t ⟨hext, hmtg⟩
    · exfalso
      unfold scanSelect at hsel
      rw [hsel] at hf2
      exact Option.noConfusion hf2
  · intro hall
    have hsel : scanSelect fs r (rustLines out) = none := by
      unfold scanSelect
      rcases hinv with ⟨hacc, _⟩ | ⟨f, hf2, hpos, hmemf, hgood, _, _⟩
      · rw [hacc]
      · exfalso
        have := hall f hmemf ((rustLines out).foldl (scanStep fs r) (0, none)).1
          hgood.1 hgood.2
        omega
    unfold find_recent_crate_path
    rw [h1]
    simp [h2, h3, h4, hsel]

/-- C1, witness: with a diff reporting one non-existing path, the run ends in
`NoValidChange`, by the amended characterisation. -/
theorem C1_scanner_unfiltered_witness :
    find_recent_crate_path fsC1 envC1c = .error .noValidChange := by
  apply (C1_scanner_unfiltered fsC1 envC1c ["r"] "gone.rs" rfl rfl rfl (by decide)).mpr
  intro g hg t hext hmtg
  have hg' : g ∈ [["r", "gone.rs"]] := hg
  rw [List.mem_singleton.mp hg'] at hext
  exact absurd hext (by decide)

/-- C2, counterexample: the Project Resolver does not ascend from the file's
parent.  With repository root `/r` holding a plain (non-aggregator) manifest
and the changed file `/r/a/src/lib.rs` living inside the nested crate `/r/a`
(whose manifest exists and is not an aggregator, and which is the ancestor
closest to the file with a manifest), the resolver returns `/r`, not `/r/a`. -/
theorem C2_counterexample :
    find_crate_directory fsC2 ["r", "a", "src", "lib.rs"] = .ok (.abs ["r"])
    ∧ find_crate_directory fsC2 ["r", "a", "src", "lib.rs"] ≠ .ok (.abs ["r", "a"])
    ∧ fsC2.pathExists (["r", "a"] ++ ["Cargo.toml"]) = true
    ∧ fsC2.readFile (["r", "a"] ++ ["Cargo.toml"]) = some "[package]\nname = \"a\""
    ∧ strContains "[package]\nname = \"a\"" "[workspace]" = false
    ∧ fsC2.pathExists (["r", "a", "src"] ++ ["Cargo.toml"]) = false := by decide

/-- C3, counterexample: a reported file that exists and is stat-able but whose
modification time equals the Unix epoch is never selected, because
`latest_time` starts at the epoch and only a strictly greater time is kept;
with such a file as the only candidate the scanner errors with
`No valid changed files found` instead of selecting it. -/
theorem C3_counterexample :
    find_recent_crate_path fsC3 envC3 = .error .noValidChange
    ∧ fsC3.pathExists ["r", "z.rs"] = true
    ∧ fsC3.mtime ["r", "z.rs"] = some 0
    ∧ rustTrim "z.rs" ≠ ""
    ∧ scanCands ["r"] (rustLines "z.rs") = [["r", "z.rs"]] := by decide

/-- C2, amended: the resolver's precedence order.  (i) When a repository root
is found and directly contains a manifest that is not an aggregator, that
root is returned immediately, with no ascent from the file's parent.
(ii) When no repository root is found, or the root lacks a manifest, the
current working directory is used whenever it directly contains a manifest —
before any ascent, and also when a repository root does exist.  (iii) Only
otherwise does the resolver ascend from the file's parent, returning the
closest ancestor holding a manifest, regardless of aggregator marking. -/
theorem C2_resolver_precedence (fs : FS) (file : AbsPath) :
    (∀ r content, find_repo_root fs = some r →
      fs.pathExists (r ++ ["Cargo.toml"]) = true →
      fs.readFile (r ++ ["Cargo.toml"]) = some content →
      strContains content "[workspace]" = false →
      find_crate_directory fs file = .ok (.abs r))
    ∧ ((find_repo_root fs = none ∨
        ∃ r, find_repo_root fs = some r ∧ fs.pathExists (r ++ ["Cargo.toml"]) = false) →
      fs.pathExists (fs.cwd ++ ["Cargo.toml"]) = true →
      find_crate_directory fs file = .ok (.rel []))
    ∧ ((find_repo_root fs = none ∨
        ∃ r, find_repo_root fs = some r ∧ fs.pathExists (r ++ ["Cargo.toml"]) = false) →
      fs.pathExists (fs.cwd ++ ["Cargo.toml"]) = false →
      ∀ d, d ≠ [] → d <+: file.dropLast → hasManifest fs d →
        (∀ q, q <+: file.dropLast → d.length < q.length → ¬ hasManifest fs q) →
        find_crate_directory fs file = .ok (.abs d)) := by
  have henter : (find_repo_root fs = none ∨
      ∃ r, find_repo_root fs = some r ∧ fs.pathExists (r ++ ["Cargo.toml"]) = false) →
      find_crate_directory fs file = fcdFallback fs file := by
    rintro (hnone | ⟨r, hr, hmiss⟩)
    · unfold find_crate_directory
      rw [hnone]
    · unfold find_crate_directory
      rw [hr]
      simp [hmiss]
  refine ⟨?_, ?_, ?_⟩
  · intro r content hr hman hread hws
    unfold find_crate_directory
    rw [hr]
    simp [hman, hread, hws]
  · intro hroot hcwd
    rw [henter hroot]
    unfold fcdFallback
    simp [hcwd]
  · intro hroot hcwd d hd0 hpre hmd hq
    have hasc : ascendCargo fs file.dropLast = some d :=
      (ascendCargo_some_iff fs file.dropLast d).mpr ⟨hd0, hpre, hmd, hq⟩
    rw [henter hroot]
    unfold fcdFallback
    simp [hcwd, hasc]

/-- C2, witness: first conjunct on the `fsC2` layout (non-workspace root
manifest shadows the closer `/r/a`), second conjunct on the `fsC2b` layout
(no repository root, working directory manifest preferred over the ancestor
`/w/pkg` of the file). -/
theorem C2_resolver_precedence_witness :
    find_crate_directory fsC2 ["r", "a", "src", "lib.rs"] = .ok (.abs ["r"])
    ∧ find_crate_directory fsC2b ["w", "pkg", "src", "main.rs"] = .ok (.rel []) :=
  ⟨(C2_resolver_precedence fsC2 ["r", "a", "src", "lib.rs"]).1 ["r"]
      "[package]\nname = \"root\"" rfl rfl rfl (by decide),
    (C2_resolver_precedence fsC2b ["w", "pkg", "src", "main.rs"]).2.1 (Or.inl rfl) rfl⟩

/-- C3, amended: under a located repository root and a successfully decoded,
non-empty diff output, if at least one reported file exists with readable
metadata and a timestamp strictly after the epoch, the scanner selects a
reported existing file of maximal timestamp, and no other candidate tied on
that timestamp renders to a lexicographically smaller absolute path string;
the selected file is the one handed to the resolver. -/
theorem C3_latest_selection (fs : FS) (env : Env) (r : AbsPath) (out : String)
    (h1 : find_repo_root fs = some r)
    (h2 : env.gitDiffOk = true)
    (h3 : env.gitDiffStdout = some out)
    (h4 : rustTrim out ≠ "")
    (h5 : ∃ f ∈ scanCands r (rustLines out), ∃ t, fs.pathExists f = true ∧
        fs.mtime f = some t ∧ 0 < t) :
    ∃ sel t, scanSelect fs r (rustLines out) = some sel
      ∧ find_recent_crate_path fs env = find_crate_directory fs sel
      ∧ sel ∈ scanCands r (rustLines out)
      ∧ fs.pathExists sel = true ∧ fs.mtime sel = some t
      ∧ (∀ g ∈ scanCands r (rustLines out), ∀ t', fs.pathExists g = true →
          fs.mtime g = some t' → t' ≤ t)
      ∧ (∀ g ∈ scanCands r (rustLines out), ∀ t', fs.pathExists g = true →
          fs.mtime g = some t' → t' = t → strLt (pathStr g) (pathStr sel) = false) := by
  have hinv := scanSelect_inv fs r (rustLines out)
  rcases hinv with ⟨hacc, hall⟩ | ⟨f, hf2, hpos, hmemf, hgood, hle, htie⟩
  · exfalso
    obtain ⟨f, hmem, t, hext, hmt, hpos⟩ := h5
    unfold scanCands at hmem
    obtain ⟨lg, hlg, hfg⟩ := List.mem_map.mp hmem
    subst hfg
    have := hall lg hlg t ⟨hext, hmt⟩
    omega
  · have hsel : scanSelect fs r (rustLines out) = some f := hf2
    refine ⟨f, ((rustLines out).foldl (scanStep fs r) (0, none)).1, hsel, ?_,
      hmemf, hgood.1, hgood.2, ?_, ?_⟩
    · unfold find_recent_crate_path
      rw [h1]
      simp [h2, h3, h4, hsel]
    · intro g hg t' hext hmtg
      unfold scanCands at hg
      obtain ⟨lg, hlg, hfg⟩ := List.mem_map.mp hg
      subst hfg
      exact hle lg hlg t' ⟨hext, hmtg⟩
    · intro g hg t' hext hmtg hteq
      unfold scanCands at hg
      obtain ⟨lg, hlg, hfg⟩ := List.mem_map.mp hg
      subst hfg
      exact htie lg hlg t' ⟨hext, hmtg⟩ hteq

/-- C3, witness: in `fsC3b` the reported files `a.rs` (mtime 7) and `b.rs`
(mtime 9) make the amended selection property hold at a concrete input. -/
theorem C3_latest_selection_witness :
    ∃ sel t, scanSelect fsC3b ["r"] (rustLines "a.rs\nb.rs") = some sel
      ∧ find_recent_crate_path fsC3b envC3b = find_crate_directory fsC3b sel
      ∧ sel ∈ scanCands ["r"] (rustLines "a.rs\nb.rs")
      ∧ fsC3b.pathExists sel = true ∧ fsC3b.mtime sel = some t
      ∧ (∀ g ∈ scanCands ["r"] (rustLines "a.rs\nb.rs"), ∀ t', fsC3b.pathExists g = true →
          fsC3b.mtime g = some t' → t' ≤ t)
      ∧ (∀ g ∈ scanCands ["r"] (rustLines "a.rs\nb.rs"), ∀ t', fsC3b.pathExists g = true →
          fsC3b.mtime g = some t' → t' = t → strLt (pathStr g) (pathStr sel) = false) :=
  C3_latest_selection fsC3b envC3b ["r"] "a.rs\nb.rs" rfl rfl rfl (by decide)
    ⟨["r", "b.rs"], by decide, 9, by decide, by decide, by decide⟩

/-- C4, counterexample: the workspace search returns the first `WalkDir`
match, not the innermost.  With nested crates `/r/a` and `/r/a/b`, a sibling
order that lists `/r/a/Cargo.toml` before descending into `/r/a/b` makes the
resolver return `/r/a` for the file `/r/a/b/f.rs`, although `/r/a/b` is a
deeper candidate whose canonical path is also a prefix of the file's. -/
theorem C4_counterexample :
    find_crate_directory fsC4 ["r", "a", "b", "f.rs"] = .ok (.abs ["r", "a"])
    ∧ ["r", "a", "b"] ∈ wsCandidates fsC4 ["r"]
    ∧ ["r", "a", "b"].isPrefixOf ["r", "a", "b", "f.rs"] = true
    ∧ fsC4.canon ["r", "a", "b"] = some ["r", "a", "b"]
    ∧ fsC4.canon ["r", "a", "b", "f.rs"] = some ["r", "a", "b", "f.rs"]
    ∧ (["r", "a"] : AbsPath) ≠ ["r", "a", "b"]
    ∧ (["r", "a"] : AbsPath).length < (["r", "a", "b"] : AbsPath).length := by decide

/-- C4, amended: when the repository root manifest is an aggregator, the
resolver runs the bounded-depth (max depth 3) search and returns the first
candidate directory in traversal order — not necessarily the innermost —
whose canonicalized path passes the prefix test against the file's
canonicalized path; prefix tests are done on canonicalized paths. -/
theorem C4_first_match (fs : FS) (file r : AbsPath) (content : String)
    (pre : List AbsPath) (d' : AbsPath) (post : List AbsPath) (d : AbsPath)
    (h1 : find_repo_root fs = some r)
    (h2 : fs.pathExists (r ++ ["Cargo.toml"]) = true)
    (h3 : fs.readFile (r ++ ["Cargo.toml"]) = some content)
    (h4 : strContains content "[workspace]" = true)
    (h5 : wsCandidates fs r = pre ++ d' :: post)
    (h6 : ∀ x ∈ pre, wsContainTest fs r file x = none)
    (h7 : wsContainTest fs r file d' = some d) :
    find_crate_directory fs file = .ok (.abs d) := by
  have hfind : wsFind fs r file = some d := by
    unfold wsFind
    rw [h5]
    exact findSome?_append_first pre d' post h6 h7
  unfold find_crate_directory
  rw [h1]
  simp [h2, h3, h4, hfind]

/-- C4, witness: the amended first-match behaviour evaluated on the `fsC4`
layout, where the outer crate `/r/a` is the first candidate containing the
target file. -/
theorem C4_first_match_witness :
    find_crate_directory fsC4 ["r", "a", "b", "f.rs"] = .ok (.abs ["r", "a"]) :=
  C4_first_match fsC4 ["r", "a", "b", "f.rs"] ["r"] "[workspace]"
    [["r"]] ["r", "a"] [["r", "a", "b"]] ["r", "a"]
    rfl rfl rfl (by decide) (by decide) (by decide) (by decide)

/-- C5: when the repository root manifest is an aggregator and no candidate
directory of the bounded-depth search (other than the root itself) has a
canonicalized path that is a prefix of the file's canonicalized path, the
resolver returns the aggregator root rather than failing. -/
theorem C5_aggregator_fallback (fs : FS) (file r : AbsPath) (content : String)
    (h1 : find_repo_root fs = some r)
    (h2 : fs.pathExists (r ++ ["Cargo.toml"]) = true)
    (h3 : fs.readFile (r ++ ["Cargo.toml"]) = some content)
    (h4 : strContains content "[workspace]" = true)
    (h5 : ∀ d ∈ wsCandidates fs r, d ≠ r → ∀ cf cd,
        fs.canon file = some cf → fs.canon d = some cd → cd.isPrefixOf cf = false) :
    find_crate_directory fs file = .ok (.abs r) := by
  have hnone : wsFind fs r file = none := by
    apply findSome?_none_of_all
    intro d hd
    unfold wsContainTest
    by_cases hdr : d = r
    · simp [hdr]
    · simp only [if_neg hdr]
      cases hcf : fs.canon file with
      | none => rfl
      | some cf =>
        cases hcd : fs.canon d with
        | none => rfl
        | some cd => simp [h5 d hd hdr cf cd hcf hcd]
  unfold find_crate_directory
  rw [h1]
  simp [h2, h3, h4, hnone]

/-- C5, witness: in the `fsC5` workspace none of the sub-crate candidates
contains `/r/x.rs`, and the aggregator root `/r` is returned. -/
theorem C5_aggregator_fallback_witness :
    find_crate_directory fsC5 ["r", "x.rs"] = .ok (.abs ["r"]) := by
  apply C5_aggregator_fallback fsC5 ["r", "x.rs"] ["r"] "[workspace]" rfl rfl rfl (by decide)
  intro d hd hdr cf cd hcf hcd
  have hd' : d ∈ [["r"], ["r", "a"]] := hd
  have hcf' : cf = ["r", "x.rs"] := by injection hcf with h; exact h.symm
  have hcd' : cd = d := by injection hcd with h; exact h.symm
  subst hcf'; subst hcd'
  rcases List.mem_cons.mp hd' with h1 | h1
  · exact absurd h1 hdr
  · rcases List.mem_cons.mp h1 with h2 | h2
    · subst h2; decide
    · simp at h2

/-- C6: when the diff output trims to the empty string, the scanner reports
"no recent change" as an empty path, which is not an error: each of the three
crate-resolving CLI modes prints one empty line and exits with status 0. -/
theorem C6_empty_diff (fs : FS) (env : Env) (r : AbsPath) (out : String)
    (h1 : find_repo_root fs = some r)
    (h2 : env.gitDiffOk = true)
    (h3 : env.gitDiffStdout = some out)
    (h4 : rustTrim out = "") :
    runMain fs env .pathMode = ([""], .ok ())
    ∧ runMain fs env .showMode = ([""], .ok ())
    ∧ (∀ args, args ≠ [] → runMain fs env (.externalMode args) = ([""], .ok ()))
    ∧ exitCode (runMain fs env .pathMode).2 = 0
    ∧ exitCode (runMain fs env .showMode).2 = 0
    ∧ ∀ args, args ≠ [] → exitCode (runMain fs env (.externalMode args)).2 = 0 := by
  have hp : find_recent_crate_path fs env = .ok .emptyP := by
    unfold find_recent_crate_path
    rw [h1]
    simp [h2, h3, h4]
  have hA : runMain fs env .pathMode = ([""], .ok ()) := by simp [runMain, hp]
  have hB : runMain fs env .showMode = ([""], .ok ()) := by simp [runMain, hp]
  have hC : ∀ args, args ≠ [] → runMain fs env (.externalMode args) = ([""], .ok ()) := by
    intro args ha
    simp [runMain, hp, ha]
  exact ⟨hA, hB, hC, by rw [hA]; rfl, by rw [hB]; rfl, fun args ha => by rw [hC args ha]; rfl⟩

/-- C6, witness: a whitespace-only diff output makes all three modes print an
empty line and succeed. -/
theorem C6_empty_diff_witness :
    runMain fsC6 envC6 .pathMode = ([""], .ok ())
    ∧ runMain fsC6 envC6 .showMode = ([""], .ok ())
    ∧ runMain fsC6 envC6 (.externalMode ["build"]) = ([""], .ok ()) := by
  obtain ⟨hA, hB, hC, _, _, _⟩ := C6_empty_diff fsC6 envC6 ["r"] " \n" rfl rfl rfl (by decide)
  exact ⟨hA, hB, hC ["build"] (by decide)⟩

/-- C7, counterexample: the regex is applied to the whole manifest and `\s`
and `[^\x22]` both match the newline, so the leftmost match can span lines.
On the manifest `name<nl>= "z"<nl>name = "v"` the program returns `z`, not
the value `v` of the well-formed `name = "v"` line it contains (and not the
directory fallback `w`); and on `name = "a<nl>b"`, where no line is a
well-formed name declaration, it returns the cross-line capture instead of
the claimed directory-segment fallback. -/
theorem C7_counterexample :
    get_crate_name fsC7x (.abs ["w"]) = .ok "z"
    ∧ "name = \"v\"" ∈ contentLines "name\n= \"z\"\nname = \"v\""
    ∧ specNameLine "name = \"v\"" "v"
    ∧ (Except.ok "z" : Except Err String) ≠ .ok "v"
    ∧ rpathFileName (.abs ["w"]) = "w"
    ∧ (Except.ok "z" : Except Err String) ≠ .ok "w"
    ∧ get_crate_name fsC7y (.abs ["w"]) = .ok "a\nb"
    ∧ (∀ ln ∈ contentLines "name = \"a\nb\"", ∀ v', ¬ specNameLine ln v')
    ∧ (Except.ok "a\nb" : Except Err String) ≠ .ok "w" := by
  refine ⟨by decide, by decide, ?_, by decide, by decide, by decide, by decide, ?_, by decide⟩
  · exact ⟨[], [' '], [' '], [], by decide, by decide, by decide, by decide, by decide,
      by decide⟩
  · intro ln hln v' hspec
    have hln' : ln ∈ ["name = \"a", "b\""] := hln
    have hspec' : specNameAt ln.toList v' := hspec
    have hc := parseNameFrom_complete hspec'
    rcases List.mem_cons.mp hln' with rfl | h2
    · rw [show parseNameFrom ("name = \"a").toList = none from by decide] at hc
      exact Option.noConfusion hc
    · rcases List.mem_cons.mp h2 with rfl | h3
      · rw [show parseNameFrom ("b\"").toList = none from by decide] at hc
        exact Option.noConfusion hc
      · simp at h3

/-- C7, amended: name extraction runs the multi-line regex over the whole
manifest. It errors with the manifest-unreadable error exactly when the
manifest cannot be read (a readable manifest always yields a name); it
returns the capture of the leftmost match — the first anchor (text start or
position after a newline) from which whitespace (possibly spanning lines),
`name`, `=`, and a quoted non-empty value are read, where the value itself
may span lines and need not come from a single well-formed line; when no
anchor admits a match it falls back to the directory's final path segment,
and that fallback never fails. -/
theorem C7_name_extraction (fs : FS) (dir : RPath) :
    (fs.readFile (fs.resolve dir ++ ["Cargo.toml"]) = none →
      get_crate_name fs dir = .error .manifestUnreadable)
    ∧ (∀ content, fs.readFile (fs.resolve dir ++ ["Cargo.toml"]) = some content →
        ∃ s, get_crate_name fs dir = .ok s)
    ∧ (∀ content pre suf post v,
        fs.readFile (fs.resolve dir ++ ["Cargo.toml"]) = some content →
        anchors content.toList = pre ++ suf :: post →
        (∀ s' ∈ pre, ∀ v', ¬ specNameAt s' v') →
        specNameAt suf v →
        get_crate_name fs dir = .ok v)
    ∧ (∀ content, fs.readFile (fs.resolve dir ++ ["Cargo.toml"]) = some content →
        (∀ s ∈ anchors content.toList, ∀ v, ¬ specNameAt s v) →
        get_crate_name fs dir = .ok (rpathFileName dir)) := by
  refine ⟨?_, ?_, ?_, ?_⟩
  · intro hread
    unfold get_crate_name
    rw [hread]
  · intro content hread
    unfold get_crate_name
    rw [hread]
    cases hfc : firstNameCapture content with
    | some n =>
      refine ⟨n, ?_⟩
      simp [hfc]
    | none =>
      refine ⟨rpathFileName dir, ?_⟩
      simp [hfc]
  · intro content pre suf post v hread hdec hpre hln
    exact get_crate_name_leftmost fs dir content pre suf post v hread hdec hpre hln
  · intro content hread hnone
    have hfind : (anchors content.toList).findSome? parseNameFrom = none := by
      apply findSome?_none_of_all
      intro y hy
      cases hp : parseNameFrom y with
      | none => rfl
      | some cap => exact absurd (parseNameFrom_sound hp) (hnone y hy (String.mk cap))
    have hfc : firstNameCapture content = none := by
      unfold firstNameCapture
      rw [hfind]
      rfl
    unfold get_crate_name
    rw [hread]
    simp [hfc]

/-- C7, witness: a manifest declaring `name = "test-crate"` on its second
anchor (the first anchor, the text start, matches nothing) yields exactly
`test-crate`. -/
theorem C7_name_extraction_witness :
    get_crate_name fsC7 (.abs ["w"]) = .ok "test-crate" :=
  (C7_name_extraction fsC7 (.abs ["w"])).2.2.1
    "[package]\nname = \"test-crate\"\nversion = \"0.1.0\""
    [("[package]\nname = \"test-crate\"\nversion = \"0.1.0\"").toList]
    ("name = \"test-crate\"\nversion = \"0.1.0\"").toList
    [("version = \"0.1.0\"").toList] "test-crate"
    rfl (by decide)
    (fun s' hs' v' hspec => by
      rw [List.mem_singleton.mp hs'] at hspec
      have hc := parseNameFrom_complete hspec
      rw [show parseNameFrom ("[package]\nname = \"test-crate\"\nversion = \"0.1.0\"").toList =
        none from by decide] at hc
      exact Option.noConfusion hc)
    ⟨[], [' '], [' '], ("\nversion = \"0.1.0\"").toList,
      by decide, by decide, by decide, by decide, by decide, by decide⟩

/-- C8, counterexample: the round-trip fails as claimed.  In the workspace of
`fsC8x` the resolver yields `/r/a`, whose manifest contains the well-formed
line `name = "v"`, yet extraction returns `z` — the capture of the leftmost
regex match, which spans the first two lines (`name<nl>= "z"`). -/
theorem C8_counterexample :
    find_crate_directory fsC8x ["r", "a", "src", "lib.rs"] = .ok (.abs ["r", "a"])
    ∧ fsC8x.readFile (["r", "a"] ++ ["Cargo.toml"]) = some "name\n= \"z\"\nname = \"v\""
    ∧ "name = \"v\"" ∈ contentLines "name\n= \"z\"\nname = \"v\""
    ∧ specNameLine "name = \"v\"" "v"
    ∧ get_crate_name fsC8x (.abs ["r", "a"]) = .ok "z"
    ∧ (Except.ok "z" : Except Err String) ≠ .ok "v" := by
  refine ⟨by decide, by decide, by decide, ?_, by decide, by decide⟩
  exact ⟨[], [' '], [' '], [], by decide, by decide, by decide, by decide, by decide, by decide⟩

/-- C8, amended: when the resolver yields a project directory whose readable
manifest has its leftmost regex match (first matching anchor) carrying value
`v`, extracting the name after resolving returns exactly `v`, and that
`name = "<value>"` declaration is literally present in the manifest — though
it may span lines, and need not be the value of a well-formed single-line
`name` declaration even when one exists. -/
theorem C8_roundtrip (fs : FS) (file : AbsPath) (d : RPath)
    (content : String) (pre : List (List Char)) (suf : List Char) (post : List (List Char))
    (v : String)
    (hres : find_crate_directory fs file = .ok d)
    (hread : fs.readFile (fs.resolve d ++ ["Cargo.toml"]) = some content)
    (hdec : anchors content.toList = pre ++ suf :: post)
    (hpre : ∀ s' ∈ pre, ∀ v', ¬ specNameAt s' v')
    (hln : specNameAt suf v) :
    get_crate_name fs d = .ok v ∧ ∃ s ∈ anchors content.toList, specNameAt s v := by
  refine ⟨get_crate_name_leftmost fs d content pre suf post v hread hdec hpre hln, ?_⟩
  refine ⟨suf, ?_, hln⟩
  rw [hdec]
  exact List.mem_append_right _ (List.mem_cons_self suf post)

/-- C8, witness: the spec's end-to-end layout — workspace root `/r`,
sub-crate `/r/a` declaring `name = "a"`, changed file `/r/a/src/lib.rs` —
resolves to `/r/a` and extracts exactly `a`, the leftmost match of its
manifest. -/
theorem C8_roundtrip_witness :
    get_crate_name fsC8 (.abs ["r", "a"]) = .ok "a"
    ∧ ∃ s ∈ anchors ("[package]\nname = \"a\"").toList, specNameAt s "a" :=
  C8_roundtrip fsC8 ["r", "a", "src", "lib.rs"] (.abs ["r", "a"]) "[package]\nname = \"a\""
    [("[package]\nname = \"a\"").toList] ("name = \"a\"").toList [] "a"
    (by decide) rfl (by decide)
    (fun s' hs' v' hspec => by
      rw [List.mem_singleton.mp hs'] at hspec
      have hc := parseNameFrom_complete hspec
      rw [show parseNameFrom ("[package]\nname = \"a\"").toList = none from by decide] at hc
      exact Option.noConfusion hc)
    ⟨[], [' '], [' '], [], by decide, by decide, by decide, by decide, by decide, by decide⟩

/-- C9: in the command-forwarding mode, a forwarded cargo invocation that
exits with non-zero status is surfaced as a downstream-failure error carrying
the child's stderr, and the tool itself exits non-zero. -/
theorem C9_downstream (fs : FS) (env : Env) (args : List String) (p : RPath) (n : String)
    (ha : args ≠ [])
    (h1 : find_recent_crate_path fs env = .ok p)
    (h2 : p ≠ .emptyP)
    (h3 : get_crate_name fs p = .ok n)
    (h4 : env.cargoSpawnOk = true)
    (h5 : env.cargoStatusOk = false) :
    runMain fs env (.externalMode args) = ([], .error (.downstreamFailure env.cargoStderr))
    ∧ exitCode (runMain fs env (.externalMode args)).2 ≠ 0 := by
  have hr : runMain fs env (.externalMode args) =
      ([], .error (.downstreamFailure env.cargoStderr)) := by
    simp [runMain, ha, h1, h2, h3, h4, h5]
  exact ⟨hr, by rw [hr]; simp [exitCode]⟩

/-- C9, witness: with the `demo` crate resolved and a cargo child process
exiting non-zero with stderr `build failed`, the run ends in a
downstream-failure error and a non-zero exit. -/
theorem C9_downstream_witness :
    runMain fsC9 envC9 (.externalMode ["build"]) = ([], .error (.downstreamFailure "build failed"))
    ∧ exitCode (runMain fsC9 envC9 (.externalMode ["build"])).2 ≠ 0 :=
  C9_downstream fsC9 envC9 ["build"] (.abs ["r"]) "demo"
    (by decide) (by decide) (by decide) (by decide) rfl rfl

/-- C10: when no ancestor of the working directory contains a `.git`
directory, crate resolution fails with the repository-root error before the
diff output is ever consulted (the run's outcome is identical for any two
process environments), and every crate-resolving CLI mode exits non-zero;
hence the resolver's treat-the-cwd-as-project fallback for the no-repo-root
case is unreachable through the CLI surface. -/
theorem C10_no_repo_root (fs : FS) (env env2 : Env) (m : Mode)
    (h : find_repo_root fs = none) (hm : m ≠ .noMode) :
    find_recent_crate_path fs env = .error .noRepoRoot
    ∧ exitCode (runMain fs env m).2 = 1
    ∧ runMain fs env m = runMain fs env2 m := by
  have he : ∀ e : Env, find_recent_crate_path fs e = .error .noRepoRoot := by
    intro e
    unfold find_recent_crate_path
    rw [h]
  refine ⟨he env, ?_, ?_⟩
  · cases m with
    | pathMode => simp [runMain, he env, exitCode]
    | showMode => simp [runMain, he env, exitCode]
    | externalMode args =>
      by_cases hargs : args = []
      · simp [runMain, hargs, exitCode]
      · simp [runMain, hargs, he env, exitCode]
    | noMode => exact absurd rfl hm
  · cases m with
    | pathMode => simp [runMain, he env, he env2]
    | showMode => simp [runMain, he env, he env2]
    | externalMode args =>
      by_cases hargs : args = []
      · simp [runMain, hargs]
      · simp [runMain, hargs, he env, he env2]
    | noMode => exact absurd rfl hm

/-- C10, witness: with no `.git` above `/x`, the `path` mode fails with the
repository-root error and exits 1, identically for a succeeding and a failing
diff oracle. -/
theorem C10_no_repo_root_witness :
    find_recent_crate_path fsC10 envC10a = .error .noRepoRoot
    ∧ exitCode (runMain fsC10 envC10a .pathMode).2 = 1
    ∧ runMain fsC10 envC10a .pathMode = runMain fsC10 envC10b .pathMode :=
  C10_no_repo_root fsC10 envC10a envC10b .pathMode rfl (by decide)

end CargoRecent
